import Mathlib

/-
Verification of the effect-monad library in src/lib.rs.

An Effect in the source is a Rust closure of type FnOnce() -> A whose
captured environment may be mutated when the closure runs.  We embed such
a closure shallowly as a state transformer: the captured environment is an
explicit state of type sigma, and invoking the effect maps the current
state to the produced value together with the updated state.
-/

namespace RustEffect

/-- An effect over ambient mutable state `σ` producing a value of type `α`:
the shallow embedding of a zero-argument deferred computation whose captured
environment is modelled as explicit state.  Invoking the effect is applying
it to the current state. -/
@[reducible] def Effect (σ α : Type) : Type := σ → α × σ

/-- Helper enum acting as a resolve function (src/lib.rs, `ResolveFn`):
a single-variant wrapper `Const` around an already-available value. -/
inductive ResolveFn (T : Type) : Type
  | Const : T → ResolveFn T

/-- Calling a constant resolver once (src/lib.rs, `ResolveFn` call
impl): the arguments are ignored and the wrapped value is returned. -/
def ResolveFn.call_once {T Args : Type} : ResolveFn T → Args → T
  | ResolveFn.Const v, _ => v

/-- Conversion from a value into a constant resolver (src/lib.rs,
`From<T> for ResolveFn<T>`): wraps the value in `Const`.  Named
`fromValue` because `from` is a Lean keyword. -/
def ResolveFn.fromValue {T : Type} (v : T) : ResolveFn T :=
  ResolveFn.Const v

/-- A struct holding two bound effects, stored uninvoked
(src/lib.rs, `BoundEffect`): the first effect `ea` and the
continuation `f`. -/
structure BoundEffect (Ea F : Type) : Type where
  ea : Ea
  f : F

/-- The call-once capability of Rust: how a value of type `F` is invoked
with an argument of type `α` to produce a `β`.  Ordinary closures are plain
functions; `ResolveFn` has its own implementation. -/
class FnOnceCall (F : Type) (α : Type) (β : outParam Type) where
  call : F → α → β

instance {α β : Type} : FnOnceCall (α → β) α β :=
  ⟨fun f a => f a⟩

instance {T α : Type} : FnOnceCall (ResolveFn T) α T :=
  ⟨fun r a => r.call_once a⟩

/-- Invoking a bound effect (src/lib.rs, `BoundEffect` call impl):
invoke the first effect, pass its result to the continuation, and invoke
the effect the continuation returns. -/
def BoundEffect.call_once {σ α β F : Type} [FnOnceCall F α (Effect σ β)]
    (self : BoundEffect (Effect σ α) F) : Effect σ β :=
  fun s =>
    let a_result := self.ea s
    (FnOnceCall.call self.f a_result.1 : Effect σ β) a_result.2

/-- The private free function `bind_effects` (src/lib.rs): stores the
first effect and the continuation in a `BoundEffect`. -/
def bind_effects {Ea F : Type} (first : Ea) (f : F) : BoundEffect Ea F :=
  { ea := first, f := f }

/-- `EffectMonad::bind` as implemented by the blanket impl for
zero-argument closures (src/lib.rs): delegates to `bind_effects`. -/
def EffectMonad.bind {σ α : Type} {F : Type} (self : Effect σ α) (f : F) :
    BoundEffect (Effect σ α) F :=
  bind_effects self f

/-- `EffectMonad::bind_ignore_contents` (src/lib.rs): shorthand that
converts the second effect into a constant resolver and binds it,
`self.bind(eb.into())`. -/
def EffectMonad.bind_ignore_contents {σ α β : Type} (self : Effect σ α)
    (eb : Effect σ β) : BoundEffect (Effect σ α) (ResolveFn (Effect σ β)) :=
  EffectMonad.bind self (ResolveFn.fromValue eb)

/-- Instrumentation used to observe invocations: run the underlying effect
and append `tag` to an event trace carried alongside the state.  Each
invocation of the wrapped computation contributes exactly one occurrence of
`tag`, at the position in the trace where the invocation happened. -/
def logged {σ α : Type} (tag : Nat) (e : Effect σ α) :
    Effect (σ × List Nat) α :=
  fun s => ((e s.1).1, ((e s.1).2, s.2 ++ [tag]))

/-- Scenario effect: add 2 to an integer counter. -/
def addTwo : Effect Int Unit := fun x => ((), x + 2)

/-- Scenario effect: subtract 1 from an integer counter. -/
def subOne : Effect Int Unit := fun x => ((), x - 1)

/-- Scenario effect: double an integer counter. -/
def doubleX : Effect Int Unit := fun x => ((), x * 2)

/-- Scenario effect for value threading: state is a pair of an unrelated
counter and a variable `x`; the effect doubles the counter and produces the
value 42. -/
def produce42 : Effect (Int × Int) Int := fun s => (42, (s.1 * 2, s.2))

/-- Scenario continuation for value threading: assign the received value
into the variable `x` (the second state component). -/
def assignX (a : Int) : Effect (Int × Int) Unit := fun s => ((), (s.1, a))

/-- Claim C1: for every effect `e1` producing `A` and continuation
`f : A → Effect B`, invoking `e1.bind f` yields the same value (and final
state) as the manual sequence: invoke `e1` to get `a`, apply `f` to `a`,
invoke the resulting effect.  Moreover, instrumenting each underlying
computation with a distinct trace tag shows each is invoked exactly once
and in that order: the trace grows by exactly `[i, j]`. -/
theorem bind_eq_manual_sequence_each_invoked_once :
    ∀ (σ α β : Type) (e1 : RustEffect.Effect σ α)
      (f : α → RustEffect.Effect σ β) (s : σ),
      (RustEffect.EffectMonad.bind e1 f).call_once s
        = (f (e1 s).1) (e1 s).2
      ∧ ∀ (t : List Nat) (i j : Nat),
          (RustEffect.EffectMonad.bind (RustEffect.logged i e1)
              (fun a => RustEffect.logged j (f a))).call_once (s, t)
            = (((f (e1 s).1) (e1 s).2).1,
               (((f (e1 s).1) (e1 s).2).2, t ++ [i, j])) := by
  intro σ α β e1 f s
  refine ⟨rfl, ?_⟩
  intro t i j
  show (((f (e1 s).1) (e1 s).2).1,
        (((f (e1 s).1) (e1 s).2).2, (t ++ [i]) ++ [j]))
     = (((f (e1 s).1) (e1 s).2).1,
        (((f (e1 s).1) (e1 s).2).2, t ++ [i, j]))
  rw [List.append_assoc]
  rfl

/-- Claim C2: `bind_ignore_contents` is equivalent to `bind` with a
continuation that discards its argument and returns the second effect;
invoking the composite yields exactly what the second effect would produce
when run on the state left by the first effect, and (by the trace
instrumentation) the first effect's side effect occurs before the second
effect runs. -/
theorem bind_ignore_contents_discards_first_value :
    ∀ (σ α β : Type) (e1 : RustEffect.Effect σ α)
      (e2 : RustEffect.Effect σ β) (s : σ),
      (RustEffect.EffectMonad.bind_ignore_contents e1 e2).call_once s
        = (RustEffect.EffectMonad.bind e1 (fun _ : α => e2)).call_once s
      ∧ (RustEffect.EffectMonad.bind_ignore_contents e1 e2).call_once s
        = e2 (e1 s).2
      ∧ ∀ (t : List Nat) (i j : Nat),
          (RustEffect.EffectMonad.bind_ignore_contents
              (RustEffect.logged i e1) (RustEffect.logged j e2)).call_once
              (s, t)
            = ((e2 (e1 s).2).1, ((e2 (e1 s).2).2, t ++ [i, j])) := by
  intro σ α β e1 e2 s
  refine ⟨rfl, rfl, ?_⟩
  intro t i j
  show ((e2 (e1 s).2).1, ((e2 (e1 s).2).2, (t ++ [i]) ++ [j]))
     = ((e2 (e1 s).2).1, ((e2 (e1 s).2).2, t ++ [i, j]))
  rw [List.append_assoc]
  rfl

/-- Claim C3: invoking a bound effect follows the strict sequential
algorithm: the first effect is invoked once producing `a` and an updated
state, then the continuation is applied to `a` producing the second effect,
then the second effect is invoked once on the updated state, and its result
is returned.  The trace conjunct records the two invocations strictly in
that order: the first effect's tag is appended before the second's. -/
theorem bound_effect_invocation_is_sequential :
    ∀ (σ α β : Type) (e1 : RustEffect.Effect σ α)
      (f : α → RustEffect.Effect σ β) (s : σ),
      (RustEffect.EffectMonad.bind e1 f).call_once s
        = ((f (e1 s).1 ((e1 s).2)).1, (f (e1 s).1 ((e1 s).2)).2)
      ∧ ∀ (t : List Nat) (i j : Nat),
          ((RustEffect.EffectMonad.bind (RustEffect.logged i e1)
              (fun a => RustEffect.logged j (f a))).call_once (s, t)).2.2
            = (t ++ [i]) ++ [j] := by
  intro σ α β e1 f s
  exact ⟨rfl, fun t i j => rfl⟩

/-- Claim C4: the two spec scenarios for side-effect ordering under
`bind_ignore_contents`: from `x = 0`, adding 2 then subtracting 1 leaves
`x = 1`; from `x = 3`, doubling then decrementing leaves `x = 5`,
never 4. -/
theorem bind_ignore_contents_ordering_scenarios :
    ((RustEffect.EffectMonad.bind_ignore_contents RustEffect.addTwo
        RustEffect.subOne).call_once 0).2 = 1
    ∧ ((RustEffect.EffectMonad.bind_ignore_contents RustEffect.doubleX
        RustEffect.subOne).call_once 3).2 = 5
    ∧ ((RustEffect.EffectMonad.bind_ignore_contents RustEffect.doubleX
        RustEffect.subOne).call_once 3).2 ≠ 4 := by
  refine ⟨rfl, rfl, ?_⟩
  decide

/-- Claim C5: `bind` threads the first effect's produced value into the
continuation: an effect producing 42 (while doubling an unrelated counter)
bound to a continuation assigning the received value into `x` leaves
`x = 42` after invocation, from every initial state. -/
theorem bind_threads_value_into_continuation :
    ∀ s : Int × Int,
      (((RustEffect.EffectMonad.bind RustEffect.produce42
          RustEffect.assignX).call_once s).2).2 = 42 := by
  intro s
  rfl

/-- Claim C6: composition is pure bookkeeping: `bind_effects`, `bind` and
`bind_ignore_contents` merely store their arguments unchanged in the
`BoundEffect` structure — no underlying computation is invoked, so no
captured state changes and construction always succeeds (the constructors
are total functions).  The stored first effect behaves on every state
exactly as the original did. -/
theorem composition_is_pure_bookkeeping :
    ∀ (σ α β : Type) (e1 : RustEffect.Effect σ α)
      (f : α → RustEffect.Effect σ β) (e2 : RustEffect.Effect σ β),
      (RustEffect.bind_effects e1 f).ea = e1
      ∧ (RustEffect.bind_effects e1 f).f = f
      ∧ (RustEffect.EffectMonad.bind e1 f).ea = e1
      ∧ (RustEffect.EffectMonad.bind e1 f).f = f
      ∧ (RustEffect.EffectMonad.bind_ignore_contents e1 e2).ea = e1
      ∧ (RustEffect.EffectMonad.bind_ignore_contents e1 e2).f
          = RustEffect.ResolveFn.Const e2
      ∧ ∀ s : σ, (RustEffect.EffectMonad.bind e1 f).ea s = e1 s := by
  intro σ α β e1 f e2
  exact ⟨rfl, rfl, rfl, rfl, rfl, rfl, fun s => rfl⟩

/-- Claim C7: `bind` is associative: invoking `(e1.bind f).bind g` yields
the same value and the same final state — hence the same side effects in
the same relative order — as invoking `e1.bind (fun a => (f a).bind g)`,
from every initial state.  Since the equality holds for arbitrary
state-instrumented effects, it covers side-effect order as well as the
final value. -/
theorem bind_is_associative :
    ∀ (σ α β γ : Type) (e1 : RustEffect.Effect σ α)
      (f : α → RustEffect.Effect σ β) (g : β → RustEffect.Effect σ γ)
      (s : σ),
      (RustEffect.EffectMonad.bind
          ((RustEffect.EffectMonad.bind e1 f).call_once) g).call_once s
        = (RustEffect.EffectMonad.bind e1
            (fun a =>
              (RustEffect.EffectMonad.bind (f a) g).call_once)).call_once
            s := by
  intro σ α β γ e1 f g s
  rfl

/-- Claim C8: the constant resolver ignores its input and returns exactly
the wrapped value: for every value `v` and argument `args`,
`(ResolveFn.Const v).call_once args = v`; the conversion from a value
builds `Const v`; and converting then calling is the identity on `v`. -/
theorem resolve_fn_const_ignores_input :
    ∀ (T Args : Type) (v : T) (args : Args),
      RustEffect.ResolveFn.call_once (RustEffect.ResolveFn.Const v) args = v
      ∧ RustEffect.ResolveFn.fromValue v = RustEffect.ResolveFn.Const v
      ∧ RustEffect.ResolveFn.call_once (RustEffect.ResolveFn.fromValue v)
          args = v := by
  intro T Args v args
  exact ⟨rfl, rfl, rfl⟩

/-- Claim C9: noninterference of the discarded value: two first effects
that perform the same state change but produce arbitrarily different
values give identical results under `bind_ignore_contents` with the same
second effect — the composite's outcome is exactly the second effect run
on the state left by the shared state change, independent of the produced
value. -/
theorem bind_ignore_contents_noninterference :
    ∀ (σ α β : Type) (g : σ → σ) (v v' : σ → α)
      (e2 : RustEffect.Effect σ β) (s : σ),
      (RustEffect.EffectMonad.bind_ignore_contents
          (fun u => (v u, g u)) e2).call_once s
        = (RustEffect.EffectMonad.bind_ignore_contents
            (fun u => (v' u, g u)) e2).call_once s
      ∧ (RustEffect.EffectMonad.bind_ignore_contents
          (fun u => (v u, g u)) e2).call_once s = e2 (g s) := by
  intro σ α β g v v' e2 s
  exact ⟨rfl, rfl⟩

/-- Claim C10: the public trait method `bind` and the private free function
`bind_effects` are equivalent: they construct the same `BoundEffect`
structure, and invoking either composite yields identical results on every
state. -/
theorem bind_equals_bind_effects :
    ∀ (σ α β F : Type) (e : RustEffect.Effect σ α) (f : F)
      (f2 : α → RustEffect.Effect σ β) (s : σ),
      RustEffect.EffectMonad.bind e f = RustEffect.bind_effects e f
      ∧ (RustEffect.EffectMonad.bind e f2).call_once s
        = (RustEffect.bind_effects e f2).call_once s := by
  intro σ α β F e f f2 s
  exact ⟨rfl, rfl⟩

end RustEffect
